import Mathlib

/-!
Verification of the connection-pool lifecycle guard of
airflow/utils/sqlalchemy.py (`setup_event_handlers`).

Shallow embedding of the three event handlers installed by
`setup_event_handlers(engine, reconnect_timeout_seconds,
initial_backoff_seconds=0.2, max_backoff_seconds=120)`:

* `ping_connection(connection, branch)` — the "engine_connect" handler:
  a retry loop that probes the connection with `SELECT 1`, retries
  invalidated failures with jittered exponential backoff, raises on
  timeout or on an unknown database error, and saves/restores the
  connection's `should_close_with_result` flag around every probe.
* `connect(dbapi_connection, connection_record)` — stamps
  `connection_record.info['pid'] = os.getpid()` at establishment.
* `checkout(dbapi_connection, connection_record, connection_proxy)` —
  rejects checkouts from a process other than the recorded owner,
  clearing the live handle on both the record and the proxy.

The Python runtime is modelled as follows: `random.random()` draws and
`time.time()` readings are supplied by an environment (`PingEnv`);
seconds are rationals; the DBAPI exception raised by a probe is
identified by a natural-number tag carried through re-raises; the
`while True:` loop is interpreted with explicit fuel (the real loop is
not syntactically bounded, and its termination is itself one of the
proved theorems).  A run records every sleep duration, the value of
`should_close_with_result` at each probe, the log calls, the final
flag value, and how the loop exited.
-/

/-- Outcome of one `connection.scalar(select([1]))` probe: either it
returns normally, or it raises a `DBAPIError` with a given
`connection_invalidated` flag, identified by tag `err`. -/
inductive ProbeOutcome
  | success
  | failure (invalidated : Bool) (err : ℕ)
deriving Repr, DecidableEq

/-- A log call made by `ping_connection`.  `errorTimeout s e` is
`log.error("Failed to re-establish DB connection within %s secs: %s", s, e)`;
`warnInvalidated` is `log.warning("DB connection invalidated. Reconnecting...")`;
`errorUnknown e` is
`log.error("Unknown database connection error. Not retrying: %s", e)`. -/
inductive LogEntry
  | errorTimeout (seconds : ℚ) (err : ℕ)
  | warnInvalidated
  | errorUnknown (err : ℕ)
deriving Repr, DecidableEq

/-- How a run of the `while True:` loop exited: normal return (`break`
after a healthy probe), re-raise of the probe error from the timeout
branch, re-raise from the unknown-error branch, or fuel exhaustion of
the interpreter. -/
inductive PingResult
  | ok
  | raisedTimeout (err : ℕ)
  | raisedUnknown (err : ℕ)
  | fuelOut
deriving Repr, DecidableEq

/-- The ambient nondeterminism of one `ping_connection` call:
`outcomes i` is what the probe at loop iteration `i` does, `jitter i`
is the `random.random()` draw at iteration `i`, and `now k` is the
value returned by the `k`-th call of `time.time()` (call `0` is
`start = time.time()`; the call inside the `except` block of iteration
`i` is call `i + 1`, since every earlier iteration also failed). -/
structure PingEnv where
  outcomes : ℕ → ProbeOutcome
  jitter : ℕ → ℚ
  now : ℕ → ℚ

/-- Observable trace of a `ping_connection` call (from some iteration
onward): the exit, the durations passed to `time.sleep`, the value of
`connection.should_close_with_result` at each issued probe, the log
calls, and the flag's value when the call is over. -/
structure RunResult where
  result : PingResult
  sleeps : List ℚ
  probeFlags : List Bool
  logs : List LogEntry
  finalFlag : Bool
deriving Repr, DecidableEq

/-- The `while True:` loop of `ping_connection`, from iteration `i`
with current `backoff`, where `save` is the saved
`should_close_with_result` value.  Each iteration sets the flag to
`False`, probes, and the `finally:` block restores the flag before the
iteration ends — on `break`, on `raise`, and on `continue` alike.  The
timeout test `time.time() - start >= reconnect_timeout_seconds` is
checked first in the `except` block; the invalidated branch updates
`backoff += backoff * random.random()` and sleeps
`min(backoff, max_backoff_seconds)`. -/
def pingLoop (env : PingEnv) (reconnect_timeout_seconds max_backoff_seconds : ℚ)
    (save : Bool) : ℕ → ℚ → ℕ → RunResult
  | _, _, 0 => ⟨.fuelOut, [], [], [], save⟩
  | i, backoff, fuel + 1 =>
    match env.outcomes i with
    | .success => ⟨.ok, [], [false], [], save⟩
    | .failure invalidated err =>
      if env.now (i + 1) - env.now 0 ≥ reconnect_timeout_seconds then
        ⟨.raisedTimeout err, [], [false],
          [.errorTimeout reconnect_timeout_seconds err], save⟩
      else if invalidated then
        let b := backoff + backoff * env.jitter i
        let rest := pingLoop env reconnect_timeout_seconds max_backoff_seconds
          save (i + 1) b fuel
        ⟨rest.result, min b max_backoff_seconds :: rest.sleeps,
          false :: rest.probeFlags, .warnInvalidated :: rest.logs, rest.finalFlag⟩
      else
        ⟨.raisedUnknown err, [], [false], [.errorUnknown err], save⟩

/-- The `engine_connect` handler `ping_connection(connection, branch)`.
`should_close_with_result` is the connection's flag on entry; it is
saved into `save_should_close_with_result` before the loop.  When
`branch` is true the handler returns at once, touching nothing. -/
def ping_connection (env : PingEnv)
    (reconnect_timeout_seconds initial_backoff_seconds max_backoff_seconds : ℚ)
    (branch : Bool) (should_close_with_result : Bool) (fuel : ℕ) : RunResult :=
  if branch then ⟨.ok, [], [], [], should_close_with_result⟩
  else pingLoop env reconnect_timeout_seconds max_backoff_seconds
    should_close_with_result 0 initial_backoff_seconds fuel

/-- Default of `initial_backoff_seconds` (0.2 in the source). -/
def initial_backoff_seconds_default : ℚ := 1 / 5

/-- Default of `max_backoff_seconds` (120 in the source). -/
def max_backoff_seconds_default : ℚ := 120

/-- The value of the loop's `backoff` variable after `k` updates
`backoff += backoff * random.random()`, starting from value `b` at
iteration `i` (so the draw consumed by update `k` is `jitter (i + k)`). -/
def backoffFrom (jitter : ℕ → ℚ) : ℕ → ℚ → ℕ → ℚ
  | _, b, 0 => b
  | i, b, k + 1 => backoffFrom jitter (i + 1) (b + b * jitter i) k

/-- A pooled connection record: `info['pid']` as stamped by `connect`,
and the live DBAPI connection handle (`none` once cleared). -/
structure ConnectionRecord where
  pid : ℕ
  connection : Option ℕ
deriving Repr, DecidableEq

/-- The in-flight checkout proxy, holding its own reference to the
live connection handle. -/
structure CheckoutProxy where
  connection : Option ℕ
deriving Repr, DecidableEq

/-- The `connect` handler: `connection_record.info['pid'] = os.getpid()`,
where `os_pid` is the pid of the process performing the establishment. -/
def connect (os_pid : ℕ) (connection_record : ConnectionRecord) : ConnectionRecord :=
  { connection_record with pid := os_pid }

/-- Result of the `checkout` handler: the record and proxy after the
call, and the message of the raised `DisconnectionError`, if any. -/
structure CheckoutResult where
  record : ConnectionRecord
  proxy : CheckoutProxy
  raised : Option String
deriving Repr, DecidableEq

/-- The message of the `DisconnectionError` raised by `checkout`
(the source's two adjacent string literals concatenate). -/
def disconnectionMessage (ownerPid currentPid : ℕ) : String :=
  "Connection record belongs to pid " ++ toString ownerPid ++
    ", attempting to check out in pid " ++ toString currentPid

/-- The `checkout` handler: compare `connection_record.info['pid']`
with `os.getpid()`; on mismatch set
`connection_record.connection = connection_proxy.connection = None`
and raise `DisconnectionError`. -/
def checkout (os_pid : ℕ) (connection_record : ConnectionRecord)
    (connection_proxy : CheckoutProxy) : CheckoutResult :=
  if connection_record.pid ≠ os_pid then
    { record := { connection_record with connection := none },
      proxy := { connection_proxy with connection := none },
      raised := some (disconnectionMessage connection_record.pid os_pid) }
  else
    { record := connection_record, proxy := connection_proxy, raised := none }

/-- Concrete scenario: every probe raises an invalidated `DBAPIError`
(tag 3), the clock reads 0 at `start` and 7 at every later call. -/
def timeoutEnv : PingEnv :=
  ⟨fun _ => .failure true 3, fun _ => 0, fun n => if n = 0 then 0 else 7⟩

/-- Concrete scenario: the first probe fails invalidated (tag 7), the
second succeeds; every jitter draw is 1/2; the clock advances one
second per reading. -/
def retryEnv : PingEnv :=
  ⟨fun n => if n = 0 then .failure true 7 else .success, fun _ => 1 / 2, Nat.cast⟩

/-- Concrete scenario: every probe raises a non-invalidated
`DBAPIError` (tag 9); the clock advances one second per reading. -/
def unknownEnv : PingEnv :=
  ⟨fun _ => .failure false 9, fun _ => 0, Nat.cast⟩

/-- Concrete scenario: every probe succeeds, but 100 seconds elapse
between `start` and any later clock reading. -/
def successEnv : PingEnv :=
  ⟨fun _ => .success, fun _ => 0, fun n => if n = 0 then 0 else 100⟩

/-- Concrete scenario: every probe fails invalidated (tag 0), jitter
is always 0, and the clock advances one second per reading (consistent
with the one-second sleeps the loop performs). -/
def invalidatedForeverEnv : PingEnv :=
  ⟨fun _ => .failure true 0, fun _ => 0, Nat.cast⟩

section BasicLemmas

variable (env : PingEnv) (t m : ℚ) (save : Bool)

/-- Unfolding: a healthy probe breaks out of the loop at once. -/
theorem pingLoop_success {i : ℕ} (h : env.outcomes i = .success) (b : ℚ) (fuel : ℕ) :
    pingLoop env t m save i b (fuel + 1) = ⟨.ok, [], [false], [], save⟩ := by
  rw [pingLoop, h]

/-- Unfolding: a failing probe with the timeout reached re-raises from
the timeout branch, whether or not the failure was an invalidation. -/
theorem pingLoop_timeout {i : ℕ} {invalidated : Bool} {err : ℕ}
    (h : env.outcomes i = .failure invalidated err)
    (ht : env.now (i + 1) - env.now 0 ≥ t) (b : ℚ) (fuel : ℕ) :
    pingLoop env t m save i b (fuel + 1) =
      ⟨.raisedTimeout err, [], [false], [.errorTimeout t err], save⟩ := by
  rw [pingLoop, h]
  dsimp only
  rw [if_pos ht]

/-- Unfolding: an invalidated failure below the timeout sleeps
`min(backoff + backoff * U, max_backoff)` and loops. -/
theorem pingLoop_retry {i : ℕ} {err : ℕ}
    (h : env.outcomes i = .failure true err)
    (ht : ¬ env.now (i + 1) - env.now 0 ≥ t) (b : ℚ) (fuel : ℕ) :
    pingLoop env t m save i b (fuel + 1) =
      ⟨(pingLoop env t m save (i + 1) (b + b * env.jitter i) fuel).result,
        min (b + b * env.jitter i) m ::
          (pingLoop env t m save (i + 1) (b + b * env.jitter i) fuel).sleeps,
        false :: (pingLoop env t m save (i + 1) (b + b * env.jitter i) fuel).probeFlags,
        .warnInvalidated ::
          (pingLoop env t m save (i + 1) (b + b * env.jitter i) fuel).logs,
        (pingLoop env t m save (i + 1) (b + b * env.jitter i) fuel).finalFlag⟩ := by
  rw [pingLoop, h]
  dsimp only
  rw [if_neg ht, if_pos rfl]

/-- Unfolding: a non-invalidated failure below the timeout re-raises
from the unknown-error branch. -/
theorem pingLoop_unknown {i : ℕ} {err : ℕ}
    (h : env.outcomes i = .failure false err)
    (ht : ¬ env.now (i + 1) - env.now 0 ≥ t) (b : ℚ) (fuel : ℕ) :
    pingLoop env t m save i b (fuel + 1) =
      ⟨.raisedUnknown err, [], [false], [.errorUnknown err], save⟩ := by
  rw [pingLoop, h]
  dsimp only
  rw [if_neg ht]
  simp

/-- The flag is restored by the `finally:` block on every exit path of
the loop: whatever happens, the run ends with the saved value. -/
theorem pingLoop_finalFlag :
    ∀ (fuel i : ℕ) (b : ℚ), (pingLoop env t m save i b fuel).finalFlag = save := by
  intro fuel
  induction fuel with
  | zero => intro i b; rfl
  | succ f ih =>
    intro i b
    rcases h : env.outcomes i with _ | ⟨invalidated, err⟩
    · rw [pingLoop_success env t m save h]
    · by_cases ht : env.now (i + 1) - env.now 0 ≥ t
      · rw [pingLoop_timeout env t m save h ht]
      · cases invalidated with
        | true => rw [pingLoop_retry env t m save h ht]; exact ih (i + 1) _
        | false => rw [pingLoop_unknown env t m save h ht]

/-- Every probe is issued with `should_close_with_result = False`. -/
theorem pingLoop_probeFlags :
    ∀ (fuel i : ℕ) (b : ℚ) (fl : Bool),
      fl ∈ (pingLoop env t m save i b fuel).probeFlags → fl = false := by
  intro fuel
  induction fuel with
  | zero => intro i b fl h; simp [pingLoop] at h
  | succ f ih =>
    intro i b fl h
    rcases he : env.outcomes i with _ | ⟨invalidated, err⟩
    · rw [pingLoop_success env t m save he] at h
      simpa using h
    · by_cases ht : env.now (i + 1) - env.now 0 ≥ t
      · rw [pingLoop_timeout env t m save he ht] at h
        simpa using h
      · cases invalidated with
        | true =>
          rw [pingLoop_retry env t m save he ht] at h
          rcases List.mem_cons.mp h with h0 | h0
          · exact h0
          · exact ih (i + 1) _ fl h0
        | false =>
          rw [pingLoop_unknown env t m save he ht] at h
          simpa using h

end BasicLemmas

section BackoffLemmas

/-- One update of the `backoff` variable, in closed form: update `k`
multiplies the current value by `1 + U` for the draw `U` consumed at
iteration `i + k`. -/
theorem backoffFrom_step (j : ℕ → ℚ) :
    ∀ (k i : ℕ) (b : ℚ),
      backoffFrom j i b (k + 1) =
        backoffFrom j i b k + backoffFrom j i b k * j (i + k) := by
  intro k
  induction k with
  | zero => intro i b; simp [backoffFrom]
  | succ n ih =>
    intro i b
    have hidx : i + 1 + n = i + (n + 1) := by omega
    calc backoffFrom j i b (n + 1 + 1)
        = backoffFrom j (i + 1) (b + b * j i) (n + 1) := rfl
      _ = backoffFrom j (i + 1) (b + b * j i) n +
            backoffFrom j (i + 1) (b + b * j i) n * j (i + 1 + n) := ih (i + 1) _
      _ = backoffFrom j i b (n + 1) + backoffFrom j i b (n + 1) * j (i + (n + 1)) := by
            rw [hidx]; rfl

/-- The backoff stays positive when it starts positive and the draws
are non-negative. -/
theorem backoffFrom_pos (j : ℕ → ℚ) (hj : ∀ n, 0 ≤ j n) :
    ∀ (k i : ℕ) (b : ℚ), 0 < b → 0 < backoffFrom j i b k := by
  intro k
  induction k with
  | zero => intro i b hb; exact hb
  | succ n ih =>
    intro i b hb
    rw [backoffFrom_step]
    have h1 := ih i b hb
    have h2 := mul_nonneg h1.le (hj (i + n))
    linarith

/-- The backoff never decreases when it starts positive and the draws
are non-negative. -/
theorem backoffFrom_le_succ (j : ℕ → ℚ) (hj : ∀ n, 0 ≤ j n)
    (k i : ℕ) (b : ℚ) (hb : 0 < b) :
    backoffFrom j i b k ≤ backoffFrom j i b (k + 1) := by
  rw [backoffFrom_step]
  have h1 := backoffFrom_pos j hj k i b hb
  have h2 := mul_nonneg h1.le (hj (i + k))
  linarith

/-- The backoff strictly increases across any update whose draw is
strictly positive (given a positive starting value). -/
theorem backoffFrom_lt_succ (j : ℕ → ℚ) (hj : ∀ n, 0 ≤ j n)
    (k i : ℕ) (b : ℚ) (hb : 0 < b) (hU : 0 < j (i + k)) :
    backoffFrom j i b k < backoffFrom j i b (k + 1) := by
  rw [backoffFrom_step]
  have h1 := backoffFrom_pos j hj k i b hb
  have h2 := mul_pos h1 hU
  linarith

/-- The backoff never drops below its starting value. -/
theorem le_backoffFrom (j : ℕ → ℚ) (hj : ∀ n, 0 ≤ j n)
    (k i : ℕ) (b : ℚ) (hb : 0 < b) : b ≤ backoffFrom j i b k := by
  induction k with
  | zero => exact le_rfl
  | succ n ih => exact le_trans ih (backoffFrom_le_succ j hj n i b hb)

/-- The `k`-th sleep of a run (0-indexed) is exactly
`min(backoff, max_backoff_seconds)` for the backoff value after `k + 1`
updates — the first sleep already uses the once-updated value, since
the source updates `backoff` before calling `time.sleep`. -/
theorem pingLoop_sleeps_getD (env : PingEnv) (t m : ℚ) (save : Bool) :
    ∀ (fuel i : ℕ) (b : ℚ) (k : ℕ),
      k < (pingLoop env t m save i b fuel).sleeps.length →
      (pingLoop env t m save i b fuel).sleeps.getD k 0 =
        min (backoffFrom env.jitter i b (k + 1)) m := by
  intro fuel
  induction fuel with
  | zero => intro i b k hk; simp [pingLoop] at hk
  | succ f ih =>
    intro i b k hk
    rcases he : env.outcomes i with _ | ⟨invalidated, err⟩
    · rw [pingLoop_success env t m save he] at hk
      simp at hk
    · by_cases ht : env.now (i + 1) - env.now 0 ≥ t
      · rw [pingLoop_timeout env t m save he ht] at hk
        simp at hk
      · cases invalidated with
        | true =>
          rw [pingLoop_retry env t m save he ht] at hk ⊢
          cases k with
          | zero => rfl
          | succ n =>
            have hk2 : n < (pingLoop env t m save (i + 1)
                (b + b * env.jitter i) f).sleeps.length := by
              simpa using hk
            have := ih (i + 1) (b + b * env.jitter i) n hk2
            simpa using this
        | false =>
          rw [pingLoop_unknown env t m save he ht] at hk
          simp at hk

end BackoffLemmas

section RunLemmas

/-- If the interpreter exhausts its fuel, every one of its iterations
took the `continue` path, so the clock reading of the last iteration's
check was still below the timeout. -/
theorem pingLoop_fuelOut_now (env : PingEnv) (t m : ℚ) (save : Bool) :
    ∀ (fuel i : ℕ) (b : ℚ),
      (pingLoop env t m save i b (fuel + 1)).result = .fuelOut →
      env.now (i + (fuel + 1)) - env.now 0 < t := by
  intro fuel
  induction fuel with
  | zero =>
    intro i b h
    rcases he : env.outcomes i with _ | ⟨invalidated, err⟩
    · rw [pingLoop_success env t m save he] at h
      exact absurd h (by simp)
    · by_cases ht : env.now (i + 1) - env.now 0 ≥ t
      · rw [pingLoop_timeout env t m save he ht] at h
        exact absurd h (by simp)
      · cases invalidated with
        | true => exact not_le.mp ht
        | false =>
          rw [pingLoop_unknown env t m save he ht] at h
          exact absurd h (by simp)
  | succ f ih =>
    intro i b h
    rcases he : env.outcomes i with _ | ⟨invalidated, err⟩
    · rw [pingLoop_success env t m save he] at h
      exact absurd h (by simp)
    · by_cases ht : env.now (i + 1) - env.now 0 ≥ t
      · rw [pingLoop_timeout env t m save he ht] at h
        exact absurd h (by simp)
      · cases invalidated with
        | true =>
          rw [pingLoop_retry env t m save he ht] at h
          have := ih (i + 1) (b + b * env.jitter i) h
          have hidx : i + 1 + (f + 1) = i + (f + 1 + 1) := by omega
          rwa [hidx] at this
        | false =>
          rw [pingLoop_unknown env t m save he ht] at h
          exact absurd h (by simp)

/-- If the clock advances by at least the performed sleep between
consecutive readings, then after `n` readings at least
`n * min(initial_backoff, max_backoff)` seconds have passed since
reading 1 (each sleep is at least that long, the backoff being
non-decreasing from its initial value). -/
theorem now_growth (env : PingEnv) (b0 maxB : ℚ)
    (hb : 0 < b0) (hj : ∀ n, 0 ≤ env.jitter n)
    (hsleep : ∀ n, env.now (n + 1) + min (backoffFrom env.jitter 0 b0 (n + 1)) maxB ≤
      env.now (n + 2)) :
    ∀ n : ℕ, env.now 1 + n * min b0 maxB ≤ env.now (n + 1) := by
  intro n
  induction n with
  | zero => simp
  | succ k ih =>
    have h1 := hsleep k
    have h2 : min b0 maxB ≤ min (backoffFrom env.jitter 0 b0 (k + 1)) maxB :=
      min_le_min (le_backoffFrom env.jitter hj (k + 1) 0 b0 hb) le_rfl
    have hcast : ((k : ℚ) + 1) * min b0 maxB = k * min b0 maxB + min b0 maxB := by ring
    push_cast
    rw [hcast]
    linarith

/-- A run whose first `N` probes fail invalidated (each check below
the timeout) and whose probe `N` succeeds returns normally after
exactly `N` sleeps and `N + 1` probes. -/
theorem pingLoop_ok_run (env : PingEnv) (t m : ℚ) (save : Bool) :
    ∀ (N i : ℕ) (b : ℚ) (fuel : ℕ),
      (∀ k, k < N → ∃ e, env.outcomes (i + k) = .failure true e) →
      (∀ k, k < N → env.now (i + k + 1) - env.now 0 < t) →
      env.outcomes (i + N) = .success →
      N < fuel →
      (pingLoop env t m save i b fuel).result = .ok ∧
        (pingLoop env t m save i b fuel).sleeps.length = N ∧
        (pingLoop env t m save i b fuel).probeFlags.length = N + 1 := by
  intro N
  induction N with
  | zero =>
    intro i b fuel hfail htime hsucc hfuel
    obtain ⟨f, rfl⟩ : ∃ f, fuel = f + 1 := ⟨fuel - 1, by omega⟩
    rw [pingLoop_success env t m save (by simpa using hsucc)]
    exact ⟨rfl, rfl, rfl⟩
  | succ N ih =>
    intro i b fuel hfail htime hsucc hfuel
    obtain ⟨f, rfl⟩ : ∃ f, fuel = f + 1 := ⟨fuel - 1, by omega⟩
    obtain ⟨e, he⟩ := hfail 0 (Nat.succ_pos N)
    rw [Nat.add_zero] at he
    have ht : ¬ env.now (i + 1) - env.now 0 ≥ t := by
      have h0 := htime 0 (Nat.succ_pos N)
      rw [Nat.add_zero] at h0
      exact not_le.mpr h0
    rw [pingLoop_retry env t m save he ht]
    have hres := ih (i + 1) (b + b * env.jitter i) f
      (fun k hk => by
        obtain ⟨e2, he2⟩ := hfail (k + 1) (by omega)
        have hidx : i + (k + 1) = i + 1 + k := by omega
        rw [hidx] at he2
        exact ⟨e2, he2⟩)
      (fun k hk => by
        have h2 := htime (k + 1) (by omega)
        have hidx : i + (k + 1) + 1 = i + 1 + k + 1 := by omega
        rwa [hidx] at h2)
      (by
        have hidx : i + (N + 1) = i + 1 + N := by omega
        rwa [hidx] at hsucc)
      (by omega)
    refine ⟨hres.1, ?_, ?_⟩
    · simpa using hres.2.1
    · simpa using hres.2.2

end RunLemmas

section Claims

/-- C1 (amended): whenever a probe fails and the check
`time.time() - start >= reconnect_timeout_seconds` holds — elapsed
being wall-clock since the first attempt — the loop raises fatally
from the timeout branch, with no further probe, sleep, or retry; the
error surfaced is the last underlying probe error itself, and the
failure is logged with the *configured* timeout value (not the
measured elapsed time), whether or not the failure was an
invalidation.  The flag is restored on this exit path. -/
theorem ping_timeout_terminal_with_last_error (env : PingEnv) (t m : ℚ) (save : Bool)
    (i : ℕ) (b : ℚ) (fuel : ℕ) (invalidated : Bool) (err : ℕ)
    (henv : env.outcomes i = .failure invalidated err)
    (ht : env.now (i + 1) - env.now 0 ≥ t) :
    pingLoop env t m save i b (fuel + 1) =
      ⟨.raisedTimeout err, [], [false], [.errorTimeout t err], save⟩ :=
  pingLoop_timeout env t m save henv ht b fuel

/-- Witness for C1: with a 5-second timeout and 7 seconds elapsed at
the first failure, the run raises the probe error (tag 3) at once. -/
theorem ping_timeout_terminal_with_last_error_witness :
    pingLoop timeoutEnv 5 120 false 0 (1 / 5) 9 =
      ⟨.raisedTimeout 3, [], [false], [.errorTimeout 5 3], false⟩ :=
  ping_timeout_terminal_with_last_error timeoutEnv 5 120 false 0 (1 / 5) 8 true 3 rfl
    (by norm_num [timeoutEnv])

/-- Counterexample for C1 as stated: the elapsed time at the fatal
check is 7 seconds, but the surfaced failure's logged duration is the
configured timeout (5 seconds), not the elapsed time — the code logs
`reconnect_timeout_seconds`, and the re-raised error carries no
duration at all. -/
theorem ping_timeout_log_elapsed_mismatch :
    timeoutEnv.now 1 - timeoutEnv.now 0 = 7 ∧
    (pingLoop timeoutEnv 5 120 false 0 (1 / 5) 9).logs = [.errorTimeout 5 3] ∧
    (pingLoop timeoutEnv 5 120 false 0 (1 / 5) 9).logs ≠
      [.errorTimeout (timeoutEnv.now 1 - timeoutEnv.now 0) 3] := by
  refine ⟨by norm_num [timeoutEnv], ?_, ?_⟩ <;> norm_num [pingLoop, timeoutEnv]

/-- C2: for every non-sub-connection acquisition, every probe is
issued with `should_close_with_result` forced off, and the flag's
final value equals the saved pre-probe value on every exit path
(success, retried failure, timeout, unknown error — and even on fuel
exhaustion of the interpreter). -/
theorem ping_flag_saved_forced_off_restored (env : PingEnv)
    (t b0 m : ℚ) (flag : Bool) (fuel : ℕ) :
    (ping_connection env t b0 m false flag fuel).finalFlag = flag ∧
    ∀ fl ∈ (ping_connection env t b0 m false flag fuel).probeFlags, fl = false := by
  have hmain : ping_connection env t b0 m false flag fuel =
      pingLoop env t m flag 0 b0 fuel := by
    simp [ping_connection]
  rw [hmain]
  exact ⟨pingLoop_finalFlag env t m flag fuel 0 b0,
    fun fl h => pingLoop_probeFlags env t m flag fuel 0 b0 fl h⟩

/-- Witness for C2: a retried-then-successful run restores the flag. -/
theorem ping_flag_saved_forced_off_restored_witness :
    (ping_connection retryEnv 5 (1 / 5) 120 false true 3).finalFlag = true :=
  (ping_flag_saved_forced_off_restored retryEnv 5 (1 / 5) 120 true 3).1

/-- C3 (amended): for every configuration with a positive
`initial_backoff_seconds` and jitter draws in `[0, 1)`, the backoff is
non-decreasing across updates `backoff += backoff * U` and strictly
increasing across every update with `U > 0`; and every sleep performed
has duration `min(backoff, max_backoff_seconds)` for the just-updated
backoff, hence never exceeds the `max_backoff_seconds` ceiling. -/
theorem backoff_growth_and_sleep_cap (env : PingEnv) (t m : ℚ) (save : Bool)
    (i : ℕ) (b : ℚ) (fuel : ℕ)
    (hb : 0 < b) (hj : ∀ n, 0 ≤ env.jitter n ∧ env.jitter n < 1) :
    (∀ k, backoffFrom env.jitter i b k ≤ backoffFrom env.jitter i b (k + 1)) ∧
    (∀ k, 0 < env.jitter (i + k) →
      backoffFrom env.jitter i b k < backoffFrom env.jitter i b (k + 1)) ∧
    (∀ k, k < (pingLoop env t m save i b fuel).sleeps.length →
      (pingLoop env t m save i b fuel).sleeps.getD k 0 =
        min (backoffFrom env.jitter i b (k + 1)) m ∧
      (pingLoop env t m save i b fuel).sleeps.getD k 0 ≤ m) := by
  have hj0 : ∀ n, 0 ≤ env.jitter n := fun n => (hj n).1
  refine ⟨fun k => backoffFrom_le_succ env.jitter hj0 k i b hb,
    fun k hU => backoffFrom_lt_succ env.jitter hj0 k i b hb hU,
    fun k hk => ⟨pingLoop_sleeps_getD env t m save fuel i b k hk, ?_⟩⟩
  rw [pingLoop_sleeps_getD env t m save fuel i b k hk]
  exact min_le_right _ _

/-- Witness for C3: with initial backoff 1/5 and jitter 1/2 the first
update strictly increases the backoff, and the one sleep of the
concrete retried run respects the 120-second ceiling. -/
theorem backoff_growth_and_sleep_cap_witness :
    backoffFrom retryEnv.jitter 0 (1 / 5) 0 < backoffFrom retryEnv.jitter 0 (1 / 5) 1 ∧
    (pingLoop retryEnv 5 120 false 0 (1 / 5) 3).sleeps.getD 0 0 ≤ 120 := by
  have h := backoff_growth_and_sleep_cap retryEnv 5 120 false 0 (1 / 5) 3 (by norm_num)
    (fun n => by constructor <;> norm_num [retryEnv])
  refine ⟨h.2.1 0 ?_, (h.2.2 0 ?_).2⟩ <;> norm_num [pingLoop, retryEnv]

/-- Counterexample for C3 as stated: the claim quantifies over every
configuration, but with `initial_backoff_seconds = 0` the update
`backoff += backoff * U` leaves the backoff unchanged even for a
strictly positive draw `U = 1/2`, and with a negative initial backoff
it strictly decreases. -/
theorem backoff_not_strict_at_zero :
    (0 : ℚ) < 1 / 2 ∧
    backoffFrom (fun _ => 1 / 2) 0 0 1 = backoffFrom (fun _ => 1 / 2) 0 0 0 ∧
    backoffFrom (fun _ => 1 / 2) 0 (-1) 1 < backoffFrom (fun _ => 1 / 2) 0 (-1) 0 := by
  norm_num [backoffFrom]

/-- C4: a checkout from a process other than the recorded owner clears
the live handle on both the record and the proxy and raises a
disconnection error whose message names both the recorded owner pid
and the current pid. -/
theorem checkout_cross_process_rejected (os_pid : ℕ) (rec : ConnectionRecord)
    (proxy : CheckoutProxy) (h : rec.pid ≠ os_pid) :
    checkout os_pid rec proxy =
      ⟨⟨rec.pid, none⟩, ⟨none⟩,
        some ("Connection record belongs to pid " ++ toString rec.pid ++
          ", attempting to check out in pid " ++ toString os_pid)⟩ := by
  cases rec with
  | mk p c => simp_all [checkout, disconnectionMessage]

/-- Witness for C4: owner pid 1, checkout attempted from pid 2. -/
theorem checkout_cross_process_rejected_witness :
    checkout 2 ⟨1, some 5⟩ ⟨some 5⟩ =
      ⟨⟨1, none⟩, ⟨none⟩,
        some "Connection record belongs to pid 1, attempting to check out in pid 2"⟩ :=
  (checkout_cross_process_rejected 2 ⟨1, some 5⟩ ⟨some 5⟩ (by decide)).trans (by decide)

/-- C5: a probe failure not classified as connection-invalidated is
terminal at once: the same error is re-raised (from the unknown-error
branch, or from the timeout branch if the deadline has also passed),
with no sleep and no retry after it, and the flag is restored. -/
theorem ping_unknown_error_fails_immediately (env : PingEnv) (t m : ℚ) (save : Bool)
    (i : ℕ) (b : ℚ) (fuel : ℕ) (err : ℕ)
    (henv : env.outcomes i = .failure false err) :
    (pingLoop env t m save i b (fuel + 1)).sleeps = [] ∧
    (pingLoop env t m save i b (fuel + 1)).probeFlags = [false] ∧
    ((pingLoop env t m save i b (fuel + 1)).result = .raisedTimeout err ∨
      (pingLoop env t m save i b (fuel + 1)).result = .raisedUnknown err) ∧
    (pingLoop env t m save i b (fuel + 1)).finalFlag = save := by
  by_cases ht : env.now (i + 1) - env.now 0 ≥ t
  · rw [pingLoop_timeout env t m save henv ht]
    exact ⟨rfl, rfl, Or.inl rfl, rfl⟩
  · rw [pingLoop_unknown env t m save henv ht]
    exact ⟨rfl, rfl, Or.inr rfl, rfl⟩

/-- Witness for C5: a non-invalidated failure (tag 9) on the first
probe propagates at once with zero sleeps. -/
theorem ping_unknown_error_fails_immediately_witness :
    (pingLoop unknownEnv 5 120 true 0 (1 / 5) 1).sleeps = [] ∧
    (pingLoop unknownEnv 5 120 true 0 (1 / 5) 1).probeFlags = [false] ∧
    ((pingLoop unknownEnv 5 120 true 0 (1 / 5) 1).result = .raisedTimeout 9 ∨
      (pingLoop unknownEnv 5 120 true 0 (1 / 5) 1).result = .raisedUnknown 9) ∧
    (pingLoop unknownEnv 5 120 true 0 (1 / 5) 1).finalFlag = true :=
  ping_unknown_error_fails_immediately unknownEnv 5 120 true 0 (1 / 5) 0 9 rfl

/-- C6: `N` consecutive invalidated failures, each checked while still
below the timeout, followed by a successful probe, make the
acquisition succeed with exactly `N` sleeps, and the flag ends at its
pre-probe value. -/
theorem ping_invalidated_retries_until_success (env : PingEnv)
    (t b0 m : ℚ) (flag : Bool) (N fuel : ℕ)
    (hfail : ∀ k, k < N → ∃ e, env.outcomes k = .failure true e)
    (htime : ∀ k, k < N → env.now (k + 1) - env.now 0 < t)
    (hsucc : env.outcomes N = .success)
    (hfuel : N < fuel) :
    (ping_connection env t b0 m false flag fuel).result = .ok ∧
    (ping_connection env t b0 m false flag fuel).sleeps.length = N ∧
    (ping_connection env t b0 m false flag fuel).finalFlag = flag := by
  have hmain : ping_connection env t b0 m false flag fuel =
      pingLoop env t m flag 0 b0 fuel := by
    simp [ping_connection]
  rw [hmain]
  have h := pingLoop_ok_run env t m flag N 0 b0 fuel
    (fun k hk => by simpa using hfail k hk)
    (fun k hk => by simpa using htime k hk)
    (by simpa using hsucc) hfuel
  exact ⟨h.1, h.2.1, pingLoop_finalFlag env t m flag fuel 0 b0⟩

/-- Witness for C6: one invalidated failure then success, below a
5-second timeout: the run succeeds with exactly one sleep, flag
restored. -/
theorem ping_invalidated_retries_until_success_witness :
    (ping_connection retryEnv 5 (1 / 5) 120 false true 3).result = .ok ∧
    (ping_connection retryEnv 5 (1 / 5) 120 false true 3).sleeps.length = 1 ∧
    (ping_connection retryEnv 5 (1 / 5) 120 false true 3).finalFlag = true :=
  ping_invalidated_retries_until_success retryEnv 5 (1 / 5) 120 true 1 3
    (fun k hk => by
      obtain rfl : k = 0 := by omega
      exact ⟨7, rfl⟩)
    (fun k hk => by
      obtain rfl : k = 0 := by omega
      norm_num [retryEnv])
    rfl (by omega)

/-- C7: the acquisition always terminates.  Under the physical
assumptions that the clock is monotone and advances by at least each
performed sleep, and that the backoff configuration is positive, the
retry loop cannot run forever even when every probe fails invalidated:
any fuel past `⌈reconnect_timeout / min(initial_backoff, max_backoff)⌉ + 2`
iterations is never exhausted, because elapsed time grows by at least
`min(initial_backoff, max_backoff)` per retry until the timeout check
forces a fatal raise. -/
theorem ping_terminates_within_bound (env : PingEnv) (t b0 maxB : ℚ)
    (branch flag : Bool) (fuel : ℕ)
    (hb : 0 < b0) (hm : 0 < maxB)
    (hj : ∀ n, 0 ≤ env.jitter n)
    (hmono : ∀ n, env.now n ≤ env.now (n + 1))
    (hsleep : ∀ n, env.now (n + 1) + min (backoffFrom env.jitter 0 b0 (n + 1)) maxB ≤
      env.now (n + 2))
    (hfuel : (⌈t / min b0 maxB⌉).toNat + 2 ≤ fuel) :
    (ping_connection env t b0 maxB branch flag fuel).result ≠ .fuelOut := by
  cases branch with
  | true => simp [ping_connection]
  | false =>
    have hmain : ping_connection env t b0 maxB false flag fuel =
        pingLoop env t maxB flag 0 b0 fuel := by
      simp [ping_connection]
    rw [hmain]
    intro hout
    obtain ⟨f, rfl⟩ : ∃ f, fuel = f + 1 := ⟨fuel - 1, by omega⟩
    have h1 := pingLoop_fuelOut_now env t maxB flag f 0 b0 hout
    rw [Nat.zero_add] at h1
    have h2 := now_growth env b0 maxB hb hj hsleep f
    have h3 : env.now 0 ≤ env.now 1 := hmono 0
    have hqpos : 0 < min b0 maxB := lt_min hb hm
    have h4 : (f : ℚ) * min b0 maxB < t := by linarith
    have h5 : (⌈t / min b0 maxB⌉).toNat + 1 ≤ f := by omega
    have h6 : t / min b0 maxB ≤ ((⌈t / min b0 maxB⌉).toNat + 1 : ℚ) := by
      have hceil := Int.le_ceil (t / min b0 maxB)
      have h7 : ((⌈t / min b0 maxB⌉ : ℤ) : ℚ) ≤ ((⌈t / min b0 maxB⌉.toNat : ℤ) : ℚ) := by
        exact_mod_cast Int.self_le_toNat _
      push_cast at h7 ⊢
      linarith
    have h8 : ((⌈t / min b0 maxB⌉).toNat + 1 : ℚ) ≤ (f : ℚ) := by exact_mod_cast h5
    have h9 : t / min b0 maxB ≤ (f : ℚ) := le_trans h6 h8
    have h10 : t ≤ (f : ℚ) * min b0 maxB := by
      rw [div_le_iff₀ hqpos] at h9
      linarith
    linarith

/-- Witness for C7: with timeout 2, both backoff parameters 1 and a
clock advancing one second per reading, fuel 4 is never exhausted. -/
theorem ping_terminates_within_bound_witness :
    (ping_connection invalidatedForeverEnv 2 1 1 false false 4).result ≠ .fuelOut := by
  apply ping_terminates_within_bound invalidatedForeverEnv 2 1 1 false false 4
  · norm_num
  · norm_num
  · intro n
    norm_num [invalidatedForeverEnv]
  · intro n
    simp only [invalidatedForeverEnv]
    push_cast
    linarith
  · intro n
    have hmin := min_le_right (backoffFrom invalidatedForeverEnv.jitter 0 1 (n + 1)) (1 : ℚ)
    simp only [invalidatedForeverEnv] at hmin ⊢
    push_cast
    linarith
  · norm_num
    decide

/-- C8: the owner process identifier is written by `connect` (stamped
with the establishing process's pid) and is read, never written, by
`checkout` — on both the matching and the violating branch the
record's pid is unchanged (`connect` also leaves the live handle
alone). -/
theorem owner_pid_stamped_once_never_modified :
    (∀ (os_pid : ℕ) (rec : ConnectionRecord),
      (connect os_pid rec).pid = os_pid ∧ (connect os_pid rec).connection = rec.connection) ∧
    (∀ (os_pid : ℕ) (rec : ConnectionRecord) (proxy : CheckoutProxy),
      ((checkout os_pid rec proxy).record).pid = rec.pid) := by
  constructor
  · intro p rec
    exact ⟨rfl, rfl⟩
  · intro p rec proxy
    rw [checkout]
    split <;> rfl

/-- C9: a sub-connection acquisition (`branch = true`) is a complete
no-op: no probe, no sleep, no log, and the flag is untouched,
regardless of the environment (in particular of the parent's
liveness). -/
theorem ping_branch_noop (env : PingEnv) (t b0 m : ℚ) (flag : Bool) (fuel : ℕ) :
    ping_connection env t b0 m true flag fuel = ⟨.ok, [], [], [], flag⟩ := by
  simp [ping_connection]

/-- C10: a successful probe always ends the acquisition successfully,
no matter how much wall-clock time has elapsed and no matter the
timeout (including `reconnect_timeout_seconds = 0`): the timeout is
checked only in the failure handler, so the probe is attempted and its
success is never converted into a timeout failure. -/
theorem ping_success_returns_regardless_of_elapsed (env : PingEnv)
    (t m : ℚ) (save : Bool) (i : ℕ) (b : ℚ) (fuel : ℕ)
    (hsucc : env.outcomes i = .success) :
    pingLoop env t m save i b (fuel + 1) = ⟨.ok, [], [false], [], save⟩ :=
  pingLoop_success env t m save hsucc b fuel

/-- Witness for C10: with the degenerate timeout 0 and 100 seconds
already elapsed at the first reading after `start`, a successful probe
still returns success. -/
theorem ping_success_returns_regardless_of_elapsed_witness :
    successEnv.now 1 - successEnv.now 0 ≥ 0 ∧
    pingLoop successEnv 0 120 true 0 (1 / 5) 1 = ⟨.ok, [], [false], [], true⟩ :=
  ⟨by norm_num [successEnv],
    ping_success_returns_regardless_of_elapsed successEnv 0 120 true 0 (1 / 5) 0 rfl⟩

end Claims
